import Mathlib

/-!
Verification development for a two-ledger reconciliation engine.

The embedded code lives in three Python modules:
  * `processors/statement.py`  — `get_pin`, `tag_statement`
  * `processors/settlement.py` — `calc_usd_amount`, `tag_settlement`
  * `processors/reconciler.py` — `get_reconcilable`, `reconcile_data`

Modelling conventions:
  * a pandas cell is a `Value` (string, exact rational number, or null;
    pandas `NaN`/`None` are both `Value.null`);
  * a dataframe row is an association list `Row`; a dataframe is a `DF`,
    a column-name list plus a row list;
  * float arithmetic on variance columns is modelled by `FNum`: exact
    rationals extended with `+inf`, `-inf` and `NaN` (rationals are exact,
    so no representation rounding is modelled). The `Variance` /
    `Variance_Percent` columns are object dtype in the source (initialized
    to `None`), so their element operations follow Python float semantics:
    dividing by a literal zero raises `ZeroDivisionError` (modelled as an
    error result of `reconcile_data`), and `.round(2)` on the object column
    is a no-op (the pandas 2 behaviour, taken as the modelling convention;
    pandas 1 would error there instead);
  * `pd.to_numeric(..., errors := coerce)` is `toNumeric`, with a decimal
    string parser `parseNum` (optional sign, integer and fractional digits;
    scientific notation is not modelled).
-/

set_option maxRecDepth 4000

/-- A cell value of a dataframe: a string, an (exact) number, or null
(modelling pandas `None`/`NaN` cell contents alike). -/
inductive Value where
  | str (s : String)
  | num (q : ℚ)
  | null
deriving DecidableEq, Repr

/-- A dataframe row: an ordered association list from column name to value. -/
abbrev Row := List (String × Value)

/-- Read column `c` of a row (first matching entry); a missing column reads
as null (pandas `NaN`). -/
def getF : Row → String → Value
  | [], _ => Value.null
  | p :: r, c => if p.1 = c then p.2 else getF r c

/-- Does the row have an entry for column `c`? -/
def hasCol : Row → String → Bool
  | [], _ => false
  | p :: r, c => p.1 == c || hasCol r c

/-- Write column `c` of a row: replace the existing entry, or append a new
one at the end (pandas column assignment). -/
def setF (r : Row) (c : String) (v : Value) : Row :=
  if hasCol r c then r.map (fun p => if p.1 = c then (c, v) else p)
  else r ++ [(c, v)]

/-- Decimal-digit test (`\d` of the regex, restricted to ASCII digits). -/
def isDigitCh (c : Char) : Bool := '0' ≤ c && c ≤ '9'

/-- Whitespace test (`\s` of Python's `re` / `str.strip`). -/
def isWsCh (c : Char) : Bool :=
  c = ' ' || c = '\t' || c = '\n' || c = '\r' || c = '\x0b' || c = '\x0c'

/-- Value of a digit string. -/
def digitsToNat (ds : List Char) : Nat :=
  ds.foldl (fun a c => a * 10 + (c.toNat - '0'.toNat)) 0

/-- Parse an unsigned decimal numeral: digits, optionally followed by `.`
and more digits, with at least one digit overall. -/
def parseUnsigned (cs : List Char) : Option ℚ :=
  let intPart := cs.takeWhile isDigitCh
  let rest := cs.dropWhile isDigitCh
  match rest with
  | [] => if intPart.isEmpty then none else some ((digitsToNat intPart : ℚ))
  | '.' :: frac =>
      if frac.all isDigitCh && !(intPart.isEmpty && frac.isEmpty) then
        some ((digitsToNat intPart : ℚ) + (digitsToNat frac : ℚ) / (10 ^ frac.length))
      else none
  | _ => none

/-- Parse a decimal numeral with optional sign and surrounding whitespace;
`none` models `pd.to_numeric(..., errors := coerce)` yielding `NaN`. -/
def parseNum (s : String) : Option ℚ :=
  match (s.toList.dropWhile isWsCh).reverse.dropWhile isWsCh |>.reverse with
  | [] => none
  | '-' :: cs => (parseUnsigned cs).map (fun q => -q)
  | '+' :: cs => parseUnsigned cs
  | cs => parseUnsigned cs

/-- Numeric coercion of a cell (`pd.to_numeric(..., errors := coerce)`):
numbers pass through, numeric strings parse, everything else is missing. -/
def toNumeric (v : Value) : Option ℚ :=
  match v with
  | Value.num q => some q
  | Value.str s => parseNum s
  | Value.null => none

/-- Repack an optional rational as a cell value (missing becomes null). -/
def numOpt : Option ℚ → Value
  | some q => Value.num q
  | none => Value.null

/-! ### Float-like numbers for the variance columns -/

/-- IEEE-style extended number: exact rational, infinities, or NaN.
`nan` also stands for a null cell of the Variance / Variance_Percent
columns (pandas stores those nulls as `NaN`/`None` and `dropna` removes
both). -/
inductive FNum where
  | fin (q : ℚ)
  | pinf
  | ninf
  | nan
deriving DecidableEq, Repr

/-- Subtraction with IEEE propagation. -/
def fsub : FNum → FNum → FNum
  | FNum.fin a, FNum.fin b => FNum.fin (a - b)
  | FNum.nan, _ => FNum.nan
  | _, FNum.nan => FNum.nan
  | FNum.pinf, FNum.pinf => FNum.nan
  | FNum.pinf, _ => FNum.pinf
  | FNum.ninf, FNum.ninf => FNum.nan
  | FNum.ninf, _ => FNum.ninf
  | FNum.fin _, FNum.pinf => FNum.ninf
  | FNum.fin _, FNum.ninf => FNum.pinf

/-- Division with NaN propagation on float-like numbers. The
zero-denominator arms are never reached from `reconcile_data`: a zero
denominator there is a Python float division, which raises
`ZeroDivisionError` before any output row exists (see `varianceAborts`). -/
def fdiv : FNum → FNum → FNum
  | FNum.nan, _ => FNum.nan
  | _, FNum.nan => FNum.nan
  | FNum.fin a, FNum.fin b =>
      if b = 0 then
        if a = 0 then FNum.nan else if 0 < a then FNum.pinf else FNum.ninf
      else FNum.fin (a / b)
  | FNum.fin _, FNum.pinf => FNum.fin 0
  | FNum.fin _, FNum.ninf => FNum.fin 0
  | FNum.pinf, FNum.fin b => if 0 ≤ b then FNum.pinf else FNum.ninf
  | FNum.ninf, FNum.fin b => if 0 ≤ b then FNum.ninf else FNum.pinf
  | FNum.pinf, FNum.pinf => FNum.nan
  | FNum.pinf, FNum.ninf => FNum.nan
  | FNum.ninf, FNum.pinf => FNum.nan
  | FNum.ninf, FNum.ninf => FNum.nan

/-- Multiplication with IEEE propagation (`inf * 0` is `NaN`). -/
def fmul : FNum → FNum → FNum
  | FNum.nan, _ => FNum.nan
  | _, FNum.nan => FNum.nan
  | FNum.fin a, FNum.fin b => FNum.fin (a * b)
  | FNum.pinf, FNum.fin b =>
      if b = 0 then FNum.nan else if 0 < b then FNum.pinf else FNum.ninf
  | FNum.ninf, FNum.fin b =>
      if b = 0 then FNum.nan else if 0 < b then FNum.ninf else FNum.pinf
  | FNum.fin a, FNum.pinf =>
      if a = 0 then FNum.nan else if 0 < a then FNum.pinf else FNum.ninf
  | FNum.fin a, FNum.ninf =>
      if a = 0 then FNum.nan else if 0 < a then FNum.ninf else FNum.pinf
  | FNum.pinf, FNum.pinf => FNum.pinf
  | FNum.pinf, FNum.ninf => FNum.ninf
  | FNum.ninf, FNum.pinf => FNum.ninf
  | FNum.ninf, FNum.ninf => FNum.pinf

/-- Round half to even (numpy's rounding mode). -/
def roundHalfEven (q : ℚ) : ℤ :=
  let f := ⌊q⌋
  let r := q - (f : ℚ)
  if r < 1 / 2 then f
  else if 1 / 2 < r then f + 1
  else if f % 2 = 0 then f else f + 1

/-- Rounding to two decimal places, half to even: what `.round(2)` WOULD
compute on a float column. On the object-dtype `Variance_Percent` column
the call is a no-op, so this function only serves to exhibit that the
program's output is unrounded. -/
def round2 (q : ℚ) : ℚ := ((roundHalfEven (q * 100) : ℚ)) / 100

/-- Numeric coercion landing in `FNum` (missing / unparsable becomes NaN),
modelling `pd.to_numeric(..., errors := coerce)` on a float column. -/
def coerceF (v : Value) : FNum :=
  match toNumeric v with
  | some q => FNum.fin q
  | none => FNum.nan

/-! ### Identifier extraction (`get_pin` of `statement.py`)

```python
def get_pin(txt):
    if pd.isna(txt):
        return None
    m = re.search(r'(\d{11})\s*$', str(txt))
    if m:
        return m.group(1)
    return None
```
-/

/-- Does the regex `(\d{11})\s*$` match at the start of `cs`: eleven digits
followed by nothing but whitespace? Returns the captured digits. -/
def matchesAt (cs : List Char) : Option (List Char) :=
  let ds := cs.take 11
  if ds.length = 11 && ds.all isDigitCh && (cs.drop 11).all isWsCh then
    some ds
  else none

/-- Model of `re.search`: try the pattern at each start position, leftmost first. -/
def searchPin : List Char → Option (List Char)
  | [] => none
  | c :: cs =>
    match matchesAt (c :: cs) with
    | some ds => some ds
    | none => searchPin cs

/-- The function `get_pin`: extract the 11-digit pin from nullable text. -/
def get_pin (txt : Option String) : Option String :=
  match txt with
  | none => none
  | some s =>
    match searchPin s.toList with
    | some ds => some (String.mk ds)
    | none => none

/-- Spec-side extractor, following the claim's words: return the trailing
digits exactly when the text ends (after optional trailing whitespace) with
a run of EXACTLY eleven consecutive decimal digits; other run lengths give
null. (Written from the spec, for comparison with `get_pin`.) -/
def specPinExact11 (txt : Option String) : Option String :=
  match txt with
  | none => none
  | some s =>
    let t := s.toList.reverse.dropWhile isWsCh
    if (t.take 11).length = 11 && (t.take 11).all isDigitCh
        && !(match t.drop 11 with
             | c :: _ => isDigitCh c
             | [] => false) then
      some (String.mk (t.take 11).reverse)
    else none

/-- Amended spec-side extractor: the text must end (after optional trailing
whitespace) with a run of AT LEAST eleven digits, and the last eleven digits
of that run are returned. -/
def specPinAtLeast11 (txt : Option String) : Option String :=
  match txt with
  | none => none
  | some s =>
    let t := s.toList.reverse.dropWhile isWsCh
    if (t.take 11).length = 11 && (t.take 11).all isDigitCh then
      some (String.mk (t.take 11).reverse)
    else none

/-! ### Eligibility tagging (`tag_statement`, `tag_settlement`)

```python
def tag_statement(df):
    df['Reconcile_Tag'] = 'Should Reconcile'
    mask1 = df['Type'].str.strip().str.lower() == 'dollar received'
    df.loc[mask1, 'Reconcile_Tag'] = 'Should Not Reconcile'
    counts = df['Partner_Pin'].value_counts()
    dups = counts[counts > 1].index.tolist()
    for p in dups:
        if pd.isna(p):
            continue
        m = df['Partner_Pin'] == p
        df.loc[m, 'Reconcile_Tag'] = 'Should Not Reconcile'
        cancel = df['Type'].str.strip().str.lower() == 'cancel'
        df.loc[m & cancel, 'Reconcile_Tag'] = 'Should Reconcile'
    return df
```
(`tag_settlement` is the same without the `dollar received` pass, with the
pin and type column names as parameters.)
-/

/-- Python `str.strip()`. -/
def pyStrip (s : String) : String :=
  String.mk ((s.toList.dropWhile isWsCh).reverse.dropWhile isWsCh |>.reverse)

/-- ASCII lowering of one character (`str.lower()` on the ASCII range). -/
def lowerCh (c : Char) : Char :=
  if 'A' ≤ c && c ≤ 'Z' then Char.ofNat (c.toNat + 32) else c

/-- Python `str.lower()` (ASCII range; the rule values are ASCII). -/
def pyLower (s : String) : String := String.mk (s.toList.map lowerCh)

/-- The `.str.strip().str.lower() == target` mask: true only on string
cells (the `.str` accessor turns non-strings into `NaN`, which compares
unequal). -/
def normTypeEq (r : Row) (typeCol target : String) : Bool :=
  match getF r typeCol with
  | Value.str s => pyLower (pyStrip s) == target
  | _ => false

/-- The tag value `'Should Reconcile'`. -/
def srTag : Value := Value.str "Should Reconcile"

/-- The tag value `'Should Not Reconcile'`. -/
def snrTag : Value := Value.str "Should Not Reconcile"

/-- Masked assignment `df.loc[mask, 'Reconcile_Tag'] = v`. -/
def setWhere (df : List Row) (mask : Row → Bool) (v : Value) : List Row :=
  df.map (fun r => if mask r then setF r "Reconcile_Tag" v else r)

/-- The pin column of a dataframe as a list. -/
def pinsOf (df : List Row) (pinCol : String) : List Value :=
  df.map (fun r => getF r pinCol)

/-- Duplicate pins: `counts = df[pin].value_counts(); dups = counts[counts > 1].index`,
followed by the loop's `if pd.isna(p): continue` (`value_counts` already
drops nulls, so the null filter is belt and braces as in the source). -/
def dupPins (df : List Row) (pinCol : String) : List Value :=
  ((pinsOf df pinCol).dedup).filter
    (fun p => !(p == Value.null) && decide (2 ≤ (pinsOf df pinCol).count p))

/-- One iteration of the duplicate loop for pin `p`: mark the group
`Should Not Reconcile`, then re-mark its `cancel`-typed members
`Should Reconcile`. -/
def applyDupPin (df : List Row) (pinCol typeCol : String) (p : Value) : List Row :=
  setWhere (setWhere df (fun r => getF r pinCol == p) snrTag)
           (fun r => getF r pinCol == p && normTypeEq r typeCol "cancel") srTag

/-- The function `tag_statement` of `statement.py`. -/
def tag_statement (df : List Row) : List Row :=
  let df1 := df.map (fun r => setF r "Reconcile_Tag" srTag)
  let df2 := setWhere df1 (fun r => normTypeEq r "Type" "dollar received") snrTag
  (dupPins df2 "Partner_Pin").foldl (fun acc p => applyDupPin acc "Partner_Pin" "Type" p) df2

/-- The function `tag_settlement` of `settlement.py` (pin/type column names are
parameters, defaulting to `Partner_Pin` / `Type` at call sites). -/
def tag_settlement (df : List Row) (pinCol typeCol : String) : List Row :=
  let df1 := df.map (fun r => setF r "Reconcile_Tag" srTag)
  (dupPins df1 pinCol).foldl (fun acc p => applyDupPin acc pinCol typeCol p) df1

/-! ### Derived settlement amount (`calc_usd_amount`)

```python
def calc_usd_amount(df, payout_col='PayoutRoundAmt', rate_col='APIRate'):
    df[payout_col] = pd.to_numeric(df[payout_col], errors='coerce')
    df[rate_col] = pd.to_numeric(df[rate_col], errors='coerce')
    def calc(row):
        if row[rate_col] != 0:
            return row[payout_col] / row[rate_col]
        return None
    df['estimate_amount_usd'] = df.apply(calc, axis=1)
    return df
```
Note `NaN != 0` is true in Python, so a missing rate takes the division
branch and yields `NaN` (null); only a literal zero rate takes the `None`
branch. Either way the derived cell is null.
-/

/-- The function `calc_usd_amount` of `settlement.py`. -/
def calc_usd_amount (df : List Row) (payoutCol rateCol : String) : List Row :=
  df.map fun r =>
    let p := toNumeric (getF r payoutCol)
    let rt := toNumeric (getF r rateCol)
    let r1 := setF (setF r payoutCol (numOpt p)) rateCol (numOpt rt)
    let usd : Option ℚ :=
      if rt ≠ some 0 then
        match p, rt with
        | some pv, some rv => some (pv / rv)
        | _, _ => none
      else none
    setF r1 "estimate_amount_usd" (numOpt usd)

/-! ### Reconciliation (`reconciler.py`)

`get_reconcilable` raises `ValueError` when the `Reconcile_Tag` column is
absent; `pd.merge(..., on='Partner_Pin')` raises `KeyError` when the key
column is absent. Both are modelled as `Except.error`, so no partial result
is produced on either. The outer join follows `pd.merge(how='outer')`
semantics: key values (including nulls, which pandas' merge matches to each
other) pair every left row with every right row holding an equal key; an
unmatched row yields a half-empty output row, and the `_merge` indicator
(`both` / `left_only` / `right_only`) becomes Category 5 / 7 / 6.
-/

/-- Errors of `reconcile_data`: the `ValueError` of `get_reconcilable`, the
`KeyError` of `pd.merge` on a missing key column, and the
`ZeroDivisionError` of dividing the object-dtype Variance column by a zero
statement amount. -/
inductive RErr where
  | missingTag
  | missingPin
  | zeroDivision
deriving DecidableEq, Repr

/-- A dataframe: its column names and its rows. -/
structure DF where
  cols : List String
  rows : List Row
deriving DecidableEq, Repr

/-- The function `get_reconcilable` of `reconciler.py`: filter to rows tagged
`'Should Reconcile'`, or fail when the tag column is absent. -/
def get_reconcilable (df : DF) : Except RErr DF :=
  if "Reconcile_Tag" ∈ df.cols then
    Except.ok ⟨df.cols, df.rows.filter (fun r => getF r "Reconcile_Tag" == srTag)⟩
  else Except.error RErr.missingTag

/-- One row of the outer join: the key and the two (possibly absent)
sides. The sides keep their original column names; the `st_` / `set_`
renaming of the source exists only to avoid column collisions, which the
two-sided structure makes impossible. -/
structure MRow where
  pin : Value
  stR : Option Row
  seR : Option Row
deriving DecidableEq, Repr

/-- Right-side rows whose key equals `p` (null keys match null keys, as in
`pd.merge`). -/
def rowsMatching (rows : List Row) (p : Value) : List Row :=
  rows.filter (fun r => getF r "Partner_Pin" == p)

/-- Outer join `pd.merge(st, se, on='Partner_Pin', how='outer')`. -/
def outerJoin (st se : List Row) : List MRow :=
  (st.flatMap fun l =>
    let ms := rowsMatching se (getF l "Partner_Pin")
    if ms.isEmpty then [⟨getF l "Partner_Pin", some l, none⟩]
    else ms.map (fun s => ⟨getF l "Partner_Pin", some l, some s⟩))
  ++ ((se.filter
        (fun s => !(st.any (fun l => getF l "Partner_Pin" == getF s "Partner_Pin")))).map
      (fun s => ⟨getF s "Partner_Pin", none, some s⟩))

/-- The `_merge` indicator mapped to a category:
`both → 5`, `right_only → 6`, `left_only → 7`. -/
def categoryOf (m : MRow) : Nat :=
  match m.stR, m.seR with
  | some _, some _ => 5
  | none, some _ => 6
  | some _, none => 7
  | none, none => 0

/-- Column renaming of the statement side:
`{c: f"st_{c}" for c in cols if c != 'Partner_Pin'}`. -/
def renameSt (cs : List String) : List String :=
  cs.map (fun c => if c == "Partner_Pin" then c else "st_" ++ c)

/-- Column renaming of the settlement side. -/
def renameSe (cs : List String) : List String :=
  cs.map (fun c => if c == "Partner_Pin" then c else "set_" ++ c)

/-- Columns of the merged frame: renamed left columns, renamed right
columns minus the key, and the indicator. -/
def mergedCols (stCols seCols : List String) : List String :=
  renameSt stCols ++ (renameSe seCols).filter (fun c => !(c == "Partner_Pin")) ++ ["_merge"]

/-- Read a column of one side of a join row (an absent side reads null). -/
def vOf (o : Option Row) (c : String) : Value :=
  match o with
  | some r => getF r c
  | none => Value.null

/-- A categorized output row: the join row, its category, and the
`Variance` / `Variance_Percent` columns (`FNum.nan` is the null those
columns are initialized with). -/
structure CRow where
  pin : Value
  stR : Option Row
  seR : Option Row
  category : Nat
  variance : FNum
  vp : FNum
deriving DecidableEq, Repr

/-- Categorize one join row and, for Category 5 when both amount columns
exist in the merged frame, compute
`Variance = to_numeric(set_amt) - to_numeric(st_amt)` and
`Variance_Percent = (Variance / to_numeric(st_amt) * 100).round(2)`.
The `Variance` column is object dtype (initialized to `None`), so the
division runs under Python float semantics element-wise: a NaN on either
side propagates, and a zero denominator raises `ZeroDivisionError` —
`reconcile_data` errors out before any row is built (`varianceAborts`), so
the zero arm of `fdiv` is never taken here. The trailing `.round(2)` is a
no-op on the object-dtype column (pandas 2), so the stored percentage is
unrounded. -/
def mkCRow (hasAmt : Bool) (stAmtCol seAmtCol : String) (m : MRow) : CRow :=
  let cat := categoryOf m
  if cat = 5 && hasAmt then
    let stV := coerceF (vOf m.stR stAmtCol)
    let seV := coerceF (vOf m.seR seAmtCol)
    let varr := fsub seV stV
    ⟨m.pin, m.stR, m.seR, cat, varr, fmul (fdiv varr stV) (FNum.fin 100)⟩
  else
    ⟨m.pin, m.stR, m.seR, cat, FNum.nan, FNum.nan⟩

/-- The dataclass `ReconciliationSummary` of `reconciler.py` (variance statistics are
exact rationals standing for the floats). -/
structure ReconciliationSummary where
  total_statement_records : Nat
  total_settlement_records : Nat
  reconcilable_statement : Nat
  reconcilable_settlement : Nat
  category_5_count : Nat
  category_6_count : Nat
  category_7_count : Nat
  total_variance : ℚ
  avg_variance : ℚ
  max_variance : ℚ
  min_variance : ℚ
deriving DecidableEq, Repr

/-- The result dictionary of `reconcile_data`. -/
structure ROut where
  category_5 : List CRow
  category_6 : List CRow
  category_7 : List CRow
  summary : ReconciliationSummary
  all_merged : List CRow
deriving DecidableEq, Repr

/-- Dropping nulls, `cat5['Variance'].dropna()`: the finite variance values. (The variance
column only ever holds finite numbers or nulls, so dropping the non-finite
constructors is exactly `dropna`.) -/
def finVals (l : List CRow) : List ℚ :=
  l.filterMap (fun c => match c.variance with | FNum.fin q => some q | _ => none)

/-- Maximum, `series.max()`, on a nonempty list (`0` is never used by the caller on
an empty list). -/
def qListMax : List ℚ → ℚ
  | [] => 0
  | a :: as => as.foldl max a

/-- Minimum, `series.min()`, on a nonempty list. -/
def qListMin : List ℚ → ℚ
  | [] => 0
  | a :: as => as.foldl min a

/-- The success path of `reconcile_data`, on the already-filtered frames:
join, categorize, compute variance, split by category, and aggregate. -/
def reconcileCore (st_rec set_rec : DF) (stAmtCol seAmtCol : String)
    (total_st total_set : Nat) : ROut :=
  let mcols := mergedCols st_rec.cols set_rec.cols
  let hasAmt := decide (("st_" ++ stAmtCol) ∈ mcols) && decide (("set_" ++ seAmtCol) ∈ mcols)
  let merged := (outerJoin st_rec.rows set_rec.rows).map (mkCRow hasAmt stAmtCol seAmtCol)
  let cat5 := merged.filter (fun c => c.category == 5)
  let cat6 := merged.filter (fun c => c.category == 6)
  let cat7 := merged.filter (fun c => c.category == 7)
  let var_vals := finVals cat5
  let summary : ReconciliationSummary :=
    ⟨total_st, total_set, st_rec.rows.length, set_rec.rows.length,
     cat5.length, cat6.length, cat7.length,
     if 0 < var_vals.length then var_vals.sum else 0,
     if 0 < var_vals.length then var_vals.sum / (var_vals.length : ℚ) else 0,
     if 0 < var_vals.length then qListMax var_vals else 0,
     if 0 < var_vals.length then qListMin var_vals else 0⟩
  ⟨cat5, cat6, cat7, summary, merged⟩

/-- Does the variance step raise `ZeroDivisionError`? It runs exactly when
both amount columns exist in the merged frame, and it divides the
object-dtype Variance cell of every Category 5 row by the row's coerced
statement amount under Python float semantics — so it raises as soon as
some Category 5 row's statement amount coerces to exactly zero (a NaN
denominator does not raise; it just yields NaN). -/
def varianceAborts (st_rec set_rec : DF) (stAmtCol seAmtCol : String) : Bool :=
  (decide (("st_" ++ stAmtCol) ∈ mergedCols st_rec.cols set_rec.cols)
    && decide (("set_" ++ seAmtCol) ∈ mergedCols st_rec.cols set_rec.cols))
  && (outerJoin st_rec.rows set_rec.rows).any
      (fun m => decide (categoryOf m = 5)
        && decide (toNumeric (vOf m.stR stAmtCol) = some 0))

/-- The function `reconcile_data` of `reconciler.py`. -/
def reconcile_data (stDf seDf : DF) (stAmtCol seAmtCol : String) : Except RErr ROut :=
  match get_reconcilable stDf with
  | Except.error e => Except.error e
  | Except.ok st_rec =>
  match get_reconcilable seDf with
  | Except.error e => Except.error e
  | Except.ok set_rec =>
  if "Partner_Pin" ∈ st_rec.cols ∧ "Partner_Pin" ∈ set_rec.cols then
    if varianceAborts st_rec set_rec stAmtCol seAmtCol then
      Except.error RErr.zeroDivision
    else
      Except.ok (reconcileCore st_rec set_rec stAmtCol seAmtCol
                  stDf.rows.length seDf.rows.length)
  else Except.error RErr.missingPin

/-! ### Helper lemmas: row field access and update -/

theorem hasCol_append_single (r : Row) (c : String) (v : Value) :
    hasCol (r ++ [(c, v)]) c = true := by
  induction r with
  | nil => simp [hasCol]
  | cons p r ih => simp [hasCol, ih]

theorem hasCol_false_imp (r : Row) (c : String) (h : hasCol r c = false) :
    ∀ p ∈ r, p.1 ≠ c := by
  induction r with
  | nil => simp
  | cons p r ih =>
    by_cases hc : p.1 = c
    · simp [hasCol, hc] at h
    · have h' : hasCol r c = false := by simpa [hasCol, hc] using h
      intro q hq
      rcases List.mem_cons.mp hq with rfl | hq
      · exact hc
      · exact ih h' q hq

theorem hasCol_map_replace (r : Row) (c : String) (v : Value) :
    hasCol (r.map (fun p => if p.1 = c then (c, v) else p)) c = hasCol r c := by
  induction r with
  | nil => simp
  | cons p r ih =>
    by_cases hc : p.1 = c
    · simp [hasCol, hc]
    · simp [hasCol, hc, ih]

theorem getF_map_replace (r : Row) (c : String) (v : Value) (h : hasCol r c = true) :
    getF (r.map (fun p => if p.1 = c then (c, v) else p)) c = v := by
  induction r with
  | nil => simp [hasCol] at h
  | cons p r ih =>
    by_cases hc : p.1 = c
    · simp [getF, hc]
    · have h' : hasCol r c = true := by simpa [hasCol, hc] using h
      simp [getF, hc, ih h']

theorem getF_append_new (r : Row) (c : String) (v : Value) (h : hasCol r c = false) :
    getF (r ++ [(c, v)]) c = v := by
  induction r with
  | nil => simp [getF]
  | cons p r ih =>
    by_cases hc : p.1 = c
    · simp [hasCol, hc] at h
    · have h' : hasCol r c = false := by simpa [hasCol, hc] using h
      simp [getF, hc, ih h']

theorem getF_map_replace_other (r : Row) (c c' : String) (v : Value) (h : c' ≠ c) :
    getF (r.map (fun p => if p.1 = c then (c, v) else p)) c' = getF r c' := by
  induction r with
  | nil => simp
  | cons p r ih =>
    by_cases hc : p.1 = c
    · have h1 : ¬ c = c' := fun hh => h hh.symm
      have h2 : ¬ p.1 = c' := by rw [hc]; exact h1
      simp [getF, hc, h1, h2, ih]
    · simp [getF, hc, ih]

theorem getF_append_other (r : Row) (c c' : String) (v : Value) (h : c' ≠ c) :
    getF (r ++ [(c, v)]) c' = getF r c' := by
  induction r with
  | nil =>
    have h1 : ¬ c = c' := fun hh => h hh.symm
    simp [getF, h1]
  | cons p r ih => simp [getF, ih]

/-- Reading the column just written. -/
theorem getF_setF_self (r : Row) (c : String) (v : Value) :
    getF (setF r c v) c = v := by
  unfold setF
  by_cases h : hasCol r c = true
  · rw [if_pos h]; exact getF_map_replace r c v h
  · have h' : hasCol r c = false := by revert h; cases hasCol r c <;> simp
    rw [if_neg (by simp [h'])]
    exact getF_append_new r c v h'

/-- Writing one column leaves the others unchanged. -/
theorem getF_setF_other (r : Row) (c c' : String) (v : Value) (h : c' ≠ c) :
    getF (setF r c v) c' = getF r c' := by
  unfold setF
  by_cases hs : hasCol r c = true
  · rw [if_pos hs]; exact getF_map_replace_other r c c' v h
  · rw [if_neg hs]; exact getF_append_other r c c' v h

/-- Two writes to the same column collapse to the last one. -/
theorem setF_setF (r : Row) (c : String) (v v' : Value) :
    setF (setF r c v) c v' = setF r c v' := by
  by_cases h : hasCol r c = true
  · unfold setF
    rw [if_pos h, if_pos (by rw [hasCol_map_replace]; exact h), if_pos h, List.map_map]
    apply List.map_congr_left
    intro p _
    by_cases hc : p.1 = c <;> simp [Function.comp, hc]
  · have h' : hasCol r c = false := by revert h; cases hasCol r c <;> simp
    unfold setF
    rw [if_neg h, if_neg h, if_pos (hasCol_append_single r c v), List.map_append]
    have hr : r.map (fun p => if p.1 = c then (c, v') else p) = r := by
      conv_rhs => rw [← List.map_id r]
      apply List.map_congr_left
      intro p hp
      simp [hasCol_false_imp r c h' p hp]
    rw [hr]
    simp

/-! ### Closed form of the taggers -/

/-- The tag a member of a duplicate group ends up with: `Should Reconcile`
for `cancel`-typed members, `Should Not Reconcile` otherwise. -/
def dupTagVal (r : Row) (typeCol : String) : Value :=
  if normTypeEq r typeCol "cancel" then srTag else snrTag

/-- The tag the statement pre-pass assigns: `Should Not Reconcile` for
`dollar received` types, `Should Reconcile` otherwise. -/
def stBaseVal (r : Row) : Value :=
  if normTypeEq r "Type" "dollar received" then snrTag else srTag

/-- Pin `p` heads a duplicate group of `pins`. -/
def dupCond (pins : List Value) (p : Value) : Prop :=
  p ≠ Value.null ∧ 2 ≤ pins.count p

instance (pins : List Value) (p : Value) : Decidable (dupCond pins p) := by
  unfold dupCond; infer_instance

/-- Closed form of a statement record's final tag, given the frame's pin
column. -/
def stTagVal (pins : List Value) (r : Row) : Value :=
  if dupCond pins (getF r "Partner_Pin") then dupTagVal r "Type" else stBaseVal r

/-- Closed form of a settlement record's final tag. -/
def seTagVal (pins : List Value) (pinCol typeCol : String) (r : Row) : Value :=
  if dupCond pins (getF r pinCol) then dupTagVal r typeCol else srTag

theorem normTypeEq_setF (r : Row) (v : Value) (typeCol target : String)
    (ht : typeCol ≠ "Reconcile_Tag") :
    normTypeEq (setF r "Reconcile_Tag" v) typeCol target = normTypeEq r typeCol target := by
  unfold normTypeEq
  rw [getF_setF_other _ _ _ _ ht]

theorem dupTagVal_setF (r : Row) (v : Value) (typeCol : String)
    (ht : typeCol ≠ "Reconcile_Tag") :
    dupTagVal (setF r "Reconcile_Tag" v) typeCol = dupTagVal r typeCol := by
  unfold dupTagVal
  rw [normTypeEq_setF r v typeCol "cancel" ht]

theorem mem_dupPins (df : List Row) (pinCol : String) (p : Value) :
    p ∈ dupPins df pinCol ↔ dupCond (pinsOf df pinCol) p := by
  unfold dupPins dupCond
  rw [List.mem_filter, List.mem_dedup]
  constructor
  · rintro ⟨_, hq⟩
    simp only [Bool.and_eq_true, Bool.not_eq_true', beq_eq_false_iff_ne,
      decide_eq_true_eq] at hq
    exact hq
  · rintro ⟨hne, hcount⟩
    refine ⟨?_, ?_⟩
    · have : 0 < (pinsOf df pinCol).count p := by omega
      exact List.count_pos_iff.mp this
    · simp only [Bool.and_eq_true, Bool.not_eq_true', beq_eq_false_iff_ne,
        decide_eq_true_eq]
      exact ⟨hne, hcount⟩

/-- One duplicate-loop iteration, as a single map over the frame. -/
theorem applyDupPin_eq (df : List Row) (pinCol typeCol : String)
    (hp : pinCol ≠ "Reconcile_Tag") (ht : typeCol ≠ "Reconcile_Tag") (p : Value) :
    applyDupPin df pinCol typeCol p
      = df.map (fun r =>
          if getF r pinCol = p then setF r "Reconcile_Tag" (dupTagVal r typeCol) else r) := by
  unfold applyDupPin setWhere
  rw [List.map_map]
  apply List.map_congr_left
  intro r _
  by_cases hpin : getF r pinCol = p
  · simp only [Function.comp, hpin, beq_self_eq_true, if_pos, Bool.true_and, if_true]
    rw [getF_setF_other r "Reconcile_Tag" pinCol snrTag hp]
    simp only [hpin, beq_self_eq_true, Bool.true_and]
    rw [normTypeEq_setF r snrTag typeCol "cancel" ht]
    unfold dupTagVal
    by_cases hc : normTypeEq r typeCol "cancel" = true
    · simp only [hc, if_true, if_pos]
      exact setF_setF r "Reconcile_Tag" snrTag srTag
    · simp only [hc, if_false]
      simp [hc]
  · have hpin' : (getF r pinCol == p) = false := by simp [hpin]
    simp [Function.comp, hpin', hpin]

/-- The duplicate loop, as a single map over the frame (the duplicate pins
are pairwise distinct, so each row is rewritten by at most one iteration). -/
theorem foldDup_eq (pinCol typeCol : String)
    (hp : pinCol ≠ "Reconcile_Tag") (ht : typeCol ≠ "Reconcile_Tag")
    (ps : List Value) (hnd : ps.Nodup) (df : List Row) :
    ps.foldl (fun acc p => applyDupPin acc pinCol typeCol p) df
      = df.map (fun r =>
          if getF r pinCol ∈ ps then setF r "Reconcile_Tag" (dupTagVal r typeCol) else r) := by
  induction ps generalizing df with
  | nil =>
    simp only [List.foldl_nil, List.not_mem_nil, if_false]
    exact (List.map_id df).symm
  | cons p ps ih =>
    have hnd' : ps.Nodup := hnd.of_cons
    have hnp : p ∉ ps := (List.nodup_cons.mp hnd).1
    rw [List.foldl_cons, ih hnd', applyDupPin_eq df pinCol typeCol hp ht p, List.map_map]
    apply List.map_congr_left
    intro r _
    simp only [Function.comp_apply]
    by_cases hpin : getF r pinCol = p
    · have hpres : getF (setF r "Reconcile_Tag" (dupTagVal r typeCol)) pinCol = p := by
        rw [getF_setF_other r "Reconcile_Tag" pinCol _ hp, hpin]
      rw [if_pos hpin, if_neg (fun hmem => hnp (hpres ▸ hmem)),
          if_pos (by rw [hpin]; exact List.mem_cons_self p ps)]
    · rw [if_neg hpin]
      by_cases hmem' : getF r pinCol ∈ ps
      · rw [if_pos hmem', if_pos (List.mem_cons_of_mem p hmem')]
      · rw [if_neg hmem',
            if_neg (fun h => hmem' ((List.mem_cons.mp h).resolve_left hpin))]

theorem pinsOf_map (df : List Row) (pinCol : String) (g : Row → Row)
    (h : ∀ r, getF (g r) pinCol = getF r pinCol) :
    pinsOf (df.map g) pinCol = pinsOf df pinCol := by
  unfold pinsOf
  rw [List.map_map]
  apply List.map_congr_left
  intro r _
  simp only [Function.comp_apply]
  exact h r

theorem dupPins_nodup (df : List Row) (pinCol : String) : (dupPins df pinCol).Nodup := by
  unfold dupPins
  exact (List.nodup_dedup _).filter _

/-- The statement tagger as a per-record closed form over the pin column. -/
theorem tag_statement_eq (df : List Row) :
    tag_statement df
      = df.map (fun r => setF r "Reconcile_Tag" (stTagVal (pinsOf df "Partner_Pin") r)) := by
  simp only [tag_statement]
  have hdf2 : setWhere (df.map (fun r => setF r "Reconcile_Tag" srTag))
      (fun r => normTypeEq r "Type" "dollar received") snrTag
      = df.map (fun r => setF r "Reconcile_Tag" (stBaseVal r)) := by
    unfold setWhere
    rw [List.map_map]
    apply List.map_congr_left
    intro r _
    simp only [Function.comp_apply]
    simp only [normTypeEq_setF r srTag "Type" "dollar received" (by decide)]
    unfold stBaseVal
    by_cases hd : normTypeEq r "Type" "dollar received" = true
    · simp [hd, setF_setF]
    · simp [hd]
  rw [hdf2]
  have hdp : dupPins (df.map (fun r => setF r "Reconcile_Tag" (stBaseVal r))) "Partner_Pin"
      = dupPins df "Partner_Pin" := by
    unfold dupPins
    rw [pinsOf_map df "Partner_Pin" _
        (fun r => getF_setF_other r "Reconcile_Tag" "Partner_Pin" (stBaseVal r) (by decide))]
  rw [hdp, foldDup_eq "Partner_Pin" "Type" (by decide) (by decide) _
      (dupPins_nodup df "Partner_Pin") _, List.map_map]
  apply List.map_congr_left
  intro r _
  simp only [Function.comp_apply]
  simp only [getF_setF_other r "Reconcile_Tag" "Partner_Pin" _ (by decide)]
  unfold stTagVal
  by_cases hc : dupCond (pinsOf df "Partner_Pin") (getF r "Partner_Pin")
  · rw [if_pos ((mem_dupPins df "Partner_Pin" _).mpr hc), if_pos hc,
        dupTagVal_setF r _ "Type" (by decide), setF_setF]
  · rw [if_neg (fun h => hc ((mem_dupPins df "Partner_Pin" _).mp h)), if_neg hc]

/-- The settlement tagger as a per-record closed form over the pin column. -/
theorem tag_settlement_eq (df : List Row) (pinCol typeCol : String)
    (hp : pinCol ≠ "Reconcile_Tag") (ht : typeCol ≠ "Reconcile_Tag") :
    tag_settlement df pinCol typeCol
      = df.map (fun r =>
          setF r "Reconcile_Tag" (seTagVal (pinsOf df pinCol) pinCol typeCol r)) := by
  simp only [tag_settlement]
  have hdp : dupPins (df.map (fun r => setF r "Reconcile_Tag" srTag)) pinCol
      = dupPins df pinCol := by
    unfold dupPins
    rw [pinsOf_map df pinCol _
        (fun r => getF_setF_other r "Reconcile_Tag" pinCol srTag hp)]
  rw [hdp, foldDup_eq pinCol typeCol hp ht _ (dupPins_nodup df pinCol) _, List.map_map]
  apply List.map_congr_left
  intro r _
  simp only [Function.comp_apply]
  simp only [getF_setF_other r "Reconcile_Tag" pinCol _ hp]
  unfold seTagVal
  by_cases hc : dupCond (pinsOf df pinCol) (getF r pinCol)
  · rw [if_pos ((mem_dupPins df pinCol _).mpr hc), if_pos hc,
        dupTagVal_setF r _ typeCol ht, setF_setF]
  · rw [if_neg (fun h => hc ((mem_dupPins df pinCol _).mp h)), if_neg hc]

/-- Re-tagging leaves statement tags unchanged (the tagger reads only the
original `Type` / `Partner_Pin` fields, which tagging never writes). -/
theorem tag_statement_idem (df : List Row) :
    tag_statement (tag_statement df) = tag_statement df := by
  rw [tag_statement_eq df,
      tag_statement_eq (df.map (fun r =>
        setF r "Reconcile_Tag" (stTagVal (pinsOf df "Partner_Pin") r)))]
  have hpins : pinsOf (df.map (fun r =>
      setF r "Reconcile_Tag" (stTagVal (pinsOf df "Partner_Pin") r))) "Partner_Pin"
      = pinsOf df "Partner_Pin" :=
    pinsOf_map df _ _ (fun r => getF_setF_other r _ _ _ (by decide))
  rw [hpins, List.map_map]
  apply List.map_congr_left
  intro r _
  simp only [Function.comp_apply]
  have hinv : stTagVal (pinsOf df "Partner_Pin")
      (setF r "Reconcile_Tag" (stTagVal (pinsOf df "Partner_Pin") r))
      = stTagVal (pinsOf df "Partner_Pin") r := by
    unfold stTagVal
    simp only [getF_setF_other r "Reconcile_Tag" "Partner_Pin" _ (by decide)]
    rw [dupTagVal_setF r _ "Type" (by decide)]
    unfold stBaseVal
    rw [normTypeEq_setF r _ "Type" "dollar received" (by decide)]
  rw [hinv, setF_setF]

/-- Re-tagging leaves settlement tags unchanged. -/
theorem tag_settlement_idem (df : List Row) (pinCol typeCol : String)
    (hp : pinCol ≠ "Reconcile_Tag") (ht : typeCol ≠ "Reconcile_Tag") :
    tag_settlement (tag_settlement df pinCol typeCol) pinCol typeCol
      = tag_settlement df pinCol typeCol := by
  rw [tag_settlement_eq df pinCol typeCol hp ht,
      tag_settlement_eq (df.map (fun r =>
        setF r "Reconcile_Tag" (seTagVal (pinsOf df pinCol) pinCol typeCol r)))
        pinCol typeCol hp ht]
  have hpins : pinsOf (df.map (fun r =>
      setF r "Reconcile_Tag" (seTagVal (pinsOf df pinCol) pinCol typeCol r))) pinCol
      = pinsOf df pinCol :=
    pinsOf_map df _ _ (fun r => getF_setF_other r _ _ _ hp)
  rw [hpins, List.map_map]
  apply List.map_congr_left
  intro r _
  simp only [Function.comp_apply]
  have hinv : seTagVal (pinsOf df pinCol) pinCol typeCol
      (setF r "Reconcile_Tag" (seTagVal (pinsOf df pinCol) pinCol typeCol r))
      = seTagVal (pinsOf df pinCol) pinCol typeCol r := by
    unfold seTagVal
    simp only [getF_setF_other r "Reconcile_Tag" pinCol _ hp]
    rw [dupTagVal_setF r _ typeCol ht]
  rw [hinv, setF_setF]

/-- Concrete frames for witnesses: two records sharing pin `A`, one
`Purchase`-typed and one `Cancel`-typed. -/
def rowPurA : Row := [("Partner_Pin", Value.str "A"), ("Type", Value.str "Purchase")]

def rowCanA : Row := [("Partner_Pin", Value.str "A"), ("Type", Value.str "Cancel")]

def dupExample : List Row := [rowPurA, rowCanA]

/-- C3: in both tagger variants, every member of a duplicate group (two or
more records sharing a non-missing identifier) ends tagged by the override
rule alone: `Should Reconcile` exactly when its trimmed, lowercased type is
`cancel`, `Should Not Reconcile` otherwise — overriding the statement
variant's blanket `dollar received` disqualification; null-pin records are
never grouped. -/
theorem C3_duplicate_override (stIn seIn : List Row) (pinCol typeCol : String)
    (hp : pinCol ≠ "Reconcile_Tag") (ht : typeCol ≠ "Reconcile_Tag")
    (i : Nat) (r : Row) (hi : stIn[i]? = some r)
    (hpin : getF r "Partner_Pin" ≠ Value.null)
    (hdup : 2 ≤ (pinsOf stIn "Partner_Pin").count (getF r "Partner_Pin"))
    (j : Nat) (s : Row) (hj : seIn[j]? = some s)
    (hpin2 : getF s pinCol ≠ Value.null)
    (hdup2 : 2 ≤ (pinsOf seIn pinCol).count (getF s pinCol)) :
    ((tag_statement stIn)[i]?.map (fun x => getF x "Reconcile_Tag"))
        = some (if normTypeEq r "Type" "cancel" then srTag else snrTag)
    ∧ ((tag_settlement seIn pinCol typeCol)[j]?.map (fun x => getF x "Reconcile_Tag"))
        = some (if normTypeEq s typeCol "cancel" then srTag else snrTag) := by
  constructor
  · rw [tag_statement_eq, List.getElem?_map, hi]
    simp only [Option.map_some']
    rw [getF_setF_self]
    unfold stTagVal
    rw [if_pos ⟨hpin, hdup⟩]
    rfl
  · rw [tag_settlement_eq seIn pinCol typeCol hp ht, List.getElem?_map, hj]
    simp only [Option.map_some']
    rw [getF_setF_self]
    unfold seTagVal
    rw [if_pos ⟨hpin2, hdup2⟩]
    rfl

/-- Witness for C3 at the spec's example: two statement records sharing
identifier `A`, typed `Purchase` and `Cancel`, end up
`Should Not Reconcile` and `Should Reconcile` respectively (and the same
for the settlement variant). -/
theorem C3_duplicate_override_witness :
    ((tag_statement dupExample)[0]?.map (fun x => getF x "Reconcile_Tag")) = some snrTag
    ∧ ((tag_statement dupExample)[1]?.map (fun x => getF x "Reconcile_Tag")) = some srTag
    ∧ ((tag_settlement dupExample "Partner_Pin" "Type")[1]?.map
        (fun x => getF x "Reconcile_Tag")) = some srTag := by
  have h1 := C3_duplicate_override dupExample dupExample "Partner_Pin" "Type"
    (by decide) (by decide) 0 rowPurA rfl (by decide) (by decide)
    1 rowCanA rfl (by decide) (by decide)
  have h2 := C3_duplicate_override dupExample dupExample "Partner_Pin" "Type"
    (by decide) (by decide) 1 rowCanA rfl (by decide) (by decide)
    1 rowCanA rfl (by decide) (by decide)
  refine ⟨?_, ?_, ?_⟩
  · rw [h1.1]; rfl
  · rw [h2.1]; rfl
  · rw [h1.2]; rfl

/-- C9: tagging is idempotent — re-running either tagger variant on its own
already-tagged output (with the original type/identifier fields) yields the
same tag for every record. -/
theorem C9_tagging_idempotent (df df2 : List Row) (pinCol typeCol : String)
    (hp : pinCol ≠ "Reconcile_Tag") (ht : typeCol ≠ "Reconcile_Tag") :
    (∀ i : Nat, ((tag_statement (tag_statement df))[i]?.map (fun x => getF x "Reconcile_Tag"))
        = ((tag_statement df)[i]?.map (fun x => getF x "Reconcile_Tag")))
    ∧ (∀ i : Nat,
        ((tag_settlement (tag_settlement df2 pinCol typeCol) pinCol typeCol)[i]?.map
          (fun x => getF x "Reconcile_Tag"))
        = ((tag_settlement df2 pinCol typeCol)[i]?.map (fun x => getF x "Reconcile_Tag"))) := by
  constructor
  · intro i
    rw [tag_statement_idem df]
  · intro i
    rw [tag_settlement_idem df2 pinCol typeCol hp ht]

/-- Witness for C9 at a concrete duplicated frame. -/
theorem C9_tagging_idempotent_witness :
    ((tag_statement (tag_statement dupExample))[0]?.map (fun x => getF x "Reconcile_Tag"))
        = ((tag_statement dupExample)[0]?.map (fun x => getF x "Reconcile_Tag"))
    ∧ ((tag_settlement (tag_settlement dupExample "Partner_Pin" "Type")
          "Partner_Pin" "Type")[0]?.map (fun x => getF x "Reconcile_Tag"))
        = ((tag_settlement dupExample "Partner_Pin" "Type")[0]?.map
            (fun x => getF x "Reconcile_Tag")) :=
  ⟨(C9_tagging_idempotent dupExample dupExample "Partner_Pin" "Type"
      (by decide) (by decide)).1 0,
   (C9_tagging_idempotent dupExample dupExample "Partner_Pin" "Type"
      (by decide) (by decide)).2 0⟩

/-! ### The trailing-pin characterization of `searchPin` -/

theorem digit_not_ws (c : Char) (h : isDigitCh c = true) : isWsCh c = false := by
  cases hw : isWsCh c
  · rfl
  · exfalso
    simp only [isWsCh, Bool.or_eq_true, decide_eq_true_eq] at hw
    rcases hw with ((((h1 | h1) | h1) | h1) | h1) | h1 <;>
      (subst h1; exact absurd h (by decide))

theorem dropWhile_append_char (p : Char → Bool) (xs ys : List Char) :
    (xs ++ ys).dropWhile p
      = if (xs.dropWhile p).isEmpty then ys.dropWhile p else xs.dropWhile p ++ ys := by
  induction xs with
  | nil => simp
  | cons x xs ih =>
    by_cases hx : p x
    · simp [List.dropWhile_cons, hx, ih]
    · simp [List.dropWhile_cons, hx]

theorem dropWhile_all_append (p : Char → Bool) (xs ys : List Char)
    (h : ∀ x ∈ xs, p x = true) :
    (xs ++ ys).dropWhile p = ys.dropWhile p := by
  rw [dropWhile_append_char]
  have : xs.dropWhile p = [] := List.dropWhile_eq_nil_iff.mpr h
  simp [this]

/-- What `searchPin` computes, stated on the reversed text: strip trailing
whitespace; succeed exactly when at least eleven digits remain at the end,
returning the last eleven. -/
def trailingPin (cs : List Char) : Option (List Char) :=
  let t := cs.reverse.dropWhile isWsCh
  if (t.take 11).length = 11 && (t.take 11).all isDigitCh then
    some (t.take 11).reverse
  else none

theorem matchesAt_some {cs ds : List Char} (h : matchesAt cs = some ds) :
    ds = cs.take 11 ∧ (cs.take 11).length = 11
      ∧ (cs.take 11).all isDigitCh = true ∧ (cs.drop 11).all isWsCh = true := by
  unfold matchesAt at h
  by_cases hc : ((cs.take 11).length = 11 && (cs.take 11).all isDigitCh
      && (cs.drop 11).all isWsCh) = true
  · rw [if_pos hc] at h
    simp only [Bool.and_eq_true, decide_eq_true_eq] at hc
    exact ⟨(Option.some.injEq _ _ ▸ h).symm, hc.1.1, hc.1.2, hc.2⟩
  · rw [if_neg hc] at h
    exact absurd h (by simp)

theorem matchesAt_none {cs : List Char} (h : matchesAt cs = none) :
    ¬((cs.take 11).length = 11 ∧ (cs.take 11).all isDigitCh = true
        ∧ (cs.drop 11).all isWsCh = true) := by
  rintro ⟨h1, h2, h3⟩
  unfold matchesAt at h
  rw [if_pos (by simp [h1, h2, h3])] at h
  exact absurd h (by simp)

/-- Searching `(\d{11})\s*$` equals the trailing-run characterization:
the leftmost viable start is exactly eleven characters before the end of the
whitespace-stripped text. -/
theorem searchPin_eq (cs : List Char) : searchPin cs = trailingPin cs := by
  induction cs with
  | nil => simp [searchPin, trailingPin]
  | cons c cs ih =>
    cases h : matchesAt (c :: cs) with
    | some ds =>
      obtain ⟨hds, hlen, hdig, hws⟩ := matchesAt_some h
      have hLHS : searchPin (c :: cs) = some ds := by
        simp only [searchPin, h]
      have hrev : (c :: cs).reverse
          = ((c :: cs).drop 11).reverse ++ ((c :: cs).take 11).reverse := by
        conv_lhs => rw [(List.take_append_drop 11 (c :: cs)).symm]
        rw [List.reverse_append]
      have h1 : (c :: cs).reverse.dropWhile isWsCh = ((c :: cs).take 11).reverse := by
        rw [hrev, dropWhile_all_append isWsCh _ _
          (fun x hx => List.all_eq_true.mp hws x (List.mem_reverse.mp hx))]
        cases htk : ((c :: cs).take 11).reverse with
        | nil =>
          exfalso
          have := congrArg List.length htk
          simp [hlen] at this
        | cons d rest =>
          have hd : isDigitCh d = true := by
            have hdm : d ∈ ((c :: cs).take 11).reverse := by
              rw [htk]; exact List.mem_cons_self _ _
            exact List.all_eq_true.mp hdig d (List.mem_reverse.mp hdm)
          rw [List.dropWhile_cons, digit_not_ws d hd]
          simp
      have hlen' : (((c :: cs).take 11).reverse).length = 11 := by
        rw [List.length_reverse]; exact hlen
      have hdig' : (((c :: cs).take 11).reverse).all isDigitCh = true := by
        rw [List.all_eq_true] at hdig ⊢
        intro x hx
        exact hdig x (List.mem_reverse.mp hx)
      rw [hLHS]
      simp only [trailingPin]
      rw [h1, List.take_of_length_le (le_of_eq hlen'),
          if_pos (by rw [hlen', hdig']; rfl), List.reverse_reverse, hds]
    | none =>
      have hLHS : searchPin (c :: cs) = searchPin cs := by
        simp only [searchPin, h]
      rw [hLHS, ih]
      simp only [trailingPin]
      rw [List.reverse_cons, dropWhile_append_char]
      by_cases ht : ((cs.reverse.dropWhile isWsCh).isEmpty) = true
      · rw [if_pos ht, List.isEmpty_iff.mp ht]
        cases hwc : isWsCh c
        · simp [List.dropWhile_cons, hwc]
        · simp [List.dropWhile_cons, hwc]
      · rw [if_neg ht]
        by_cases hle : 11 ≤ (cs.reverse.dropWhile isWsCh).length
        · rw [List.take_append_of_le_length hle]
        · push_neg at hle
          have htake_t : (cs.reverse.dropWhile isWsCh).take 11
              = cs.reverse.dropWhile isWsCh :=
            List.take_of_length_le (le_of_lt hle)
          have htake' : ((cs.reverse.dropWhile isWsCh) ++ [c]).take 11
              = (cs.reverse.dropWhile isWsCh) ++ [c] :=
            List.take_of_length_le (by rw [List.length_append]; simp; omega)
          rw [htake_t, htake']
          rw [if_neg (by
            simp only [Bool.and_eq_true, decide_eq_true_eq]
            rintro ⟨h11, _⟩
            omega)]
          by_cases hcond : (((cs.reverse.dropWhile isWsCh) ++ [c]).length = 11
              ∧ ((cs.reverse.dropWhile isWsCh) ++ [c]).all isDigitCh = true)
          · exfalso
            obtain ⟨h11, hall⟩ := hcond
            have hlen10 : (cs.reverse.dropWhile isWsCh).length = 10 := by
              rw [List.length_append] at h11; simp at h11; omega
            have hallt : ∀ x ∈ cs.reverse.dropWhile isWsCh, isDigitCh x = true := by
              intro x hx
              exact List.all_eq_true.mp hall x (List.mem_append_left _ hx)
            have hcdig : isDigitCh c = true :=
              List.all_eq_true.mp hall c (List.mem_append_right _ (List.mem_singleton.mpr rfl))
            have hcs : cs.reverse
                = cs.reverse.takeWhile isWsCh ++ cs.reverse.dropWhile isWsCh :=
              (List.takeWhile_append_dropWhile isWsCh cs.reverse).symm
            have hcs' : c :: cs
                = (c :: (cs.reverse.dropWhile isWsCh).reverse)
                    ++ (cs.reverse.takeWhile isWsCh).reverse := by
              have hc2 : cs = (cs.reverse.dropWhile isWsCh).reverse
                  ++ (cs.reverse.takeWhile isWsCh).reverse := by
                conv_lhs => rw [← List.reverse_reverse cs]
                conv_lhs => rw [hcs]
                rw [List.reverse_append]
              conv_lhs => rw [hc2]
              rfl
            apply matchesAt_none h
            have hA : (c :: (cs.reverse.dropWhile isWsCh).reverse).length = 11 := by
              simp [hlen10]
            refine ⟨?_, ?_, ?_⟩
            · rw [hcs', List.take_append_of_le_length (le_of_eq hA.symm),
                List.take_of_length_le (le_of_eq hA), hA]
            · rw [hcs', List.take_append_of_le_length (le_of_eq hA.symm),
                List.take_of_length_le (le_of_eq hA)]
              rw [List.all_eq_true]
              intro x hx
              rcases List.mem_cons.mp hx with rfl | hx
              · exact hcdig
              · exact hallt x (List.mem_reverse.mp hx)
            · rw [hcs', List.drop_append_of_le_length (le_of_eq hA.symm),
                List.drop_eq_nil_of_le (le_of_eq hA), List.nil_append]
              rw [List.all_eq_true]
              intro x hx
              exact List.mem_takeWhile_imp (List.mem_reverse.mp hx)
          · rw [if_neg (by
              simp only [Bool.and_eq_true, decide_eq_true_eq]
              exact fun hc => hcond hc)]

/-- C4 counterexample: on text ending in a 12-digit run, `get_pin` returns
the last eleven digits, while the claim (exactly-eleven-digit runs only,
`specPinExact11`) demands null. -/
theorem C4_counterexample :
    get_pin (some "123456789012") = some "23456789012"
    ∧ specPinExact11 (some "123456789012") = none
    ∧ get_pin (some "123456789012") ≠ specPinExact11 (some "123456789012") :=
  ⟨rfl, rfl, by decide⟩

/-- C4 amended: identifier extraction returns a value exactly when the text
ends (after optional trailing whitespace) with a run of AT LEAST eleven
decimal digits, and then returns the last eleven of them; shorter trailing
runs, runs not anchored at the end, and null input give null; no exception
is ever raised (the function is total). -/
theorem C4_get_pin_trailing_run (txt : Option String) :
    get_pin txt = specPinAtLeast11 txt := by
  cases txt with
  | none => rfl
  | some s =>
    simp only [get_pin, searchPin_eq, trailingPin, specPinAtLeast11]
    by_cases hc : ((((s.toList.reverse.dropWhile isWsCh).take 11).length = 11 : Bool)
        && ((s.toList.reverse.dropWhile isWsCh).take 11).all isDigitCh) = true
    · rw [if_pos hc, if_pos hc]
    · rw [if_neg hc, if_neg hc]

/-- The spec-side derived-amount formula: null unless both payout and rate
parse as numbers and the rate is non-zero, else payout divided by rate. -/
def specUsd (payout rate : Value) : Option ℚ :=
  match toNumeric payout, toNumeric rate with
  | some p, some rt => if rt ≠ 0 then some (p / rt) else none
  | _, _ => none

/-- C7: for every settlement record the derived `estimate_amount_usd` field
equals the spec formula: null unless both the payout and the rate parse as
numbers and the rate is non-zero, in which case it is payout ÷ rate;
non-numeric raw values are absorbed as missing, never an error. -/
theorem C7_usd_amount (df : List Row) (payoutCol rateCol : String) (i : Nat) (r : Row)
    (hi : df[i]? = some r) :
    ((calc_usd_amount df payoutCol rateCol)[i]?.map
        (fun x => getF x "estimate_amount_usd"))
      = some (numOpt (specUsd (getF r payoutCol) (getF r rateCol))) := by
  unfold calc_usd_amount
  rw [List.getElem?_map, hi]
  simp only [Option.map_some']
  rw [getF_setF_self]
  unfold specUsd
  cases hp : toNumeric (getF r payoutCol) with
  | none =>
    cases hrt : toNumeric (getF r rateCol) with
    | none => simp [hp, hrt]
    | some rv =>
      by_cases hrv : rv = 0
      · subst hrv; simp [hp, hrt]
      · simp [hp, hrt, hrv]
  | some pv =>
    cases hrt : toNumeric (getF r rateCol) with
    | none => simp [hp, hrt]
    | some rv =>
      by_cases hrv : rv = 0
      · subst hrv; simp [hp, hrt]
      · simp [hp, hrt, hrv]

/-- One settlement record with `payout = 50` and `rate = 0`. -/
def zeroRateRow : Row := [("PayoutRoundAmt", Value.num 50), ("APIRate", Value.num 0)]

/-- Witness for C7 at `payout = 50, rate = 0`: the derived amount is null,
not infinite and not an error. -/
theorem C7_usd_amount_witness :
    ((calc_usd_amount [zeroRateRow] "PayoutRoundAmt" "APIRate")[0]?.map
        (fun x => getF x "estimate_amount_usd")) = some Value.null :=
  (C7_usd_amount [zeroRateRow] "PayoutRoundAmt" "APIRate" 0 zeroRateRow rfl).trans (by rfl)

/-! ### Reconciliation: structure of the result -/

/-- The ShouldReconcile filter of `get_reconcilable`, as a total function. -/
def filterSR (df : DF) : DF :=
  ⟨df.cols, df.rows.filter (fun r => getF r "Reconcile_Tag" == srTag)⟩

theorem get_reconcilable_mem (df : DF) (h : "Reconcile_Tag" ∈ df.cols) :
    get_reconcilable df = Except.ok (filterSR df) := by
  unfold get_reconcilable filterSR
  rw [if_pos h]

theorem get_reconcilable_not_mem (df : DF) (h : "Reconcile_Tag" ∉ df.cols) :
    get_reconcilable df = Except.error RErr.missingTag := by
  unfold get_reconcilable
  rw [if_neg h]

/-- A successful `reconcile_data` is `reconcileCore` on the filtered
frames, and on a successful run the variance step did not raise
`ZeroDivisionError`. -/
theorem reconcile_data_ok (stDf seDf : DF) (stA seA : String) (out : ROut)
    (h : reconcile_data stDf seDf stA seA = Except.ok out) :
    out = reconcileCore (filterSR stDf) (filterSR seDf) stA seA
            stDf.rows.length seDf.rows.length
    ∧ varianceAborts (filterSR stDf) (filterSR seDf) stA seA = false := by
  unfold reconcile_data at h
  split at h
  · simp at h
  · rename_i st_rec heq
    split at h
    · simp at h
    · rename_i set_rec heq2
      split at h
      · have hst : st_rec = filterSR stDf := by
          unfold get_reconcilable at heq
          by_cases hm : "Reconcile_Tag" ∈ stDf.cols
          · rw [if_pos hm] at heq
            unfold filterSR
            exact (Except.ok.inj heq).symm
          · rw [if_neg hm] at heq
            simp at heq
        have hse : set_rec = filterSR seDf := by
          unfold get_reconcilable at heq2
          by_cases hm : "Reconcile_Tag" ∈ seDf.cols
          · rw [if_pos hm] at heq2
            unfold filterSR
            exact (Except.ok.inj heq2).symm
          · rw [if_neg hm] at heq2
            simp at heq2
        rw [hst, hse] at h
        split at h
        · simp at h
        · rename_i hguard
          refine ⟨(Except.ok.inj h).symm, ?_⟩
          revert hguard
          cases varianceAborts (filterSR stDf) (filterSR seDf) stA seA <;> simp
      · simp at h

/-- Every join row has at least one side present. -/
theorem outerJoin_side (st se : List Row) (m : MRow) (hm : m ∈ outerJoin st se) :
    m.stR.isSome ∨ m.seR.isSome := by
  unfold outerJoin at hm
  rcases List.mem_append.mp hm with hm | hm
  · rcases List.mem_flatMap.mp hm with ⟨l, _, hm2⟩
    by_cases he : (rowsMatching se (getF l "Partner_Pin")).isEmpty
    · rw [if_pos he] at hm2
      rcases List.mem_singleton.mp hm2 with rfl
      left; rfl
    · rw [if_neg he] at hm2
      rcases List.mem_map.mp hm2 with ⟨s, _, rfl⟩
      left; rfl
  · rcases List.mem_map.mp hm with ⟨s, _, rfl⟩
    right; rfl

/-- Categorization `mkCRow` preserves the category of the join row. -/
theorem mkCRow_category (hasAmt : Bool) (stA seA : String) (m : MRow) :
    (mkCRow hasAmt stA seA m).category = categoryOf m := by
  unfold mkCRow
  dsimp only
  split <;> rfl

/-- Categorization `mkCRow` preserves the two sides of the join row. -/
theorem mkCRow_sides (hasAmt : Bool) (stA seA : String) (m : MRow) :
    (mkCRow hasAmt stA seA m).stR = m.stR ∧ (mkCRow hasAmt stA seA m).seR = m.seR := by
  unfold mkCRow
  dsimp only
  split <;> exact ⟨rfl, rfl⟩

theorem categoryOf_valid (st se : List Row) (m : MRow) (hm : m ∈ outerJoin st se) :
    categoryOf m = 5 ∨ categoryOf m = 6 ∨ categoryOf m = 7 := by
  have hside := outerJoin_side st se m hm
  unfold categoryOf
  cases hst : m.stR <;> cases hse : m.seR <;> simp_all

theorem filter_three_length (l : List CRow)
    (hcat : ∀ c ∈ l, c.category = 5 ∨ c.category = 6 ∨ c.category = 7) :
    (l.filter (fun c => c.category == 5)).length
      + (l.filter (fun c => c.category == 6)).length
      + (l.filter (fun c => c.category == 7)).length = l.length := by
  induction l with
  | nil => rfl
  | cons c l ih =>
    have hc := hcat c (List.mem_cons_self c l)
    have ih' := ih (fun x hx => hcat x (List.mem_cons_of_mem c hx))
    rcases hc with h | h | h <;> simp [List.filter_cons, h] <;> omega

theorem filter_three_count (l : List CRow) (x : CRow)
    (hcat : ∀ c ∈ l, c.category = 5 ∨ c.category = 6 ∨ c.category = 7) :
    (l.filter (fun c => c.category == 5)).count x
      + (l.filter (fun c => c.category == 6)).count x
      + (l.filter (fun c => c.category == 7)).count x = l.count x := by
  have hzero : ∀ p : CRow → Bool, p x = false → (l.filter p).count x = 0 := by
    intro p hp
    rw [List.count_eq_zero]
    intro hmem
    exact absurd (List.mem_filter.mp hmem).2 (by rw [hp]; exact Bool.false_ne_true)
  by_cases hx : x ∈ l
  · rcases hcat x hx with h | h | h
    · rw [@List.count_filter CRow _ _ (fun c => c.category == 5) x l (by simp [h]),
          hzero _ (by simp [h]), hzero _ (by simp [h])]
      omega
    · rw [hzero _ (by simp [h]),
          @List.count_filter CRow _ _ (fun c => c.category == 6) x l (by simp [h]),
          hzero _ (by simp [h])]
      omega
    · rw [hzero _ (by simp [h]), hzero _ (by simp [h]),
          @List.count_filter CRow _ _ (fun c => c.category == 7) x l (by simp [h])]
      omega
  · have h1 : ∀ p : CRow → Bool, (l.filter p).count x = 0 := by
      intro p
      rw [List.count_eq_zero]
      intro hmem
      exact hx (List.mem_filter.mp hmem).1
    rw [List.count_eq_zero.mpr hx, h1, h1, h1]

/-- The three category collections of `reconcileCore` partition the merged
rows, as lengths and as multisets. -/
theorem reconcileCore_partition (st_rec set_rec : DF) (stA seA : String) (t1 t2 : Nat) :
    (reconcileCore st_rec set_rec stA seA t1 t2).category_5.length
      + (reconcileCore st_rec set_rec stA seA t1 t2).category_6.length
      + (reconcileCore st_rec set_rec stA seA t1 t2).category_7.length
      = (reconcileCore st_rec set_rec stA seA t1 t2).all_merged.length
    ∧ (∀ x : CRow,
        (reconcileCore st_rec set_rec stA seA t1 t2).category_5.count x
          + (reconcileCore st_rec set_rec stA seA t1 t2).category_6.count x
          + (reconcileCore st_rec set_rec stA seA t1 t2).category_7.count x
          = (reconcileCore st_rec set_rec stA seA t1 t2).all_merged.count x) := by
  simp only [reconcileCore]
  constructor
  · apply filter_three_length
    intro c hc
    rcases List.mem_map.mp hc with ⟨m, hm, rfl⟩
    rw [mkCRow_category]
    exact categoryOf_valid _ _ m hm
  · intro x
    apply filter_three_count
    intro c hc
    rcases List.mem_map.mp hc with ⟨m, hm, rfl⟩
    rw [mkCRow_category]
    exact categoryOf_valid _ _ m hm

/-- C1: on any successful run, the three category collections are pairwise
disjoint and jointly cover the outer join of the ShouldReconcile-filtered
subsets (multiset equality of counts), and the three summary counts sum to
the join's row count. -/
theorem C1_partition (stDf seDf : DF) (stA seA : String) (out : ROut)
    (h : reconcile_data stDf seDf stA seA = Except.ok out) :
    out.category_5.length + out.category_6.length + out.category_7.length
        = out.all_merged.length
    ∧ out.summary.category_5_count + out.summary.category_6_count
        + out.summary.category_7_count = out.all_merged.length
    ∧ (∀ x : CRow,
        out.category_5.count x + out.category_6.count x + out.category_7.count x
          = out.all_merged.count x) := by
  rw [(reconcile_data_ok stDf seDf stA seA out h).1]
  refine ⟨(reconcileCore_partition _ _ _ _ _ _).1, ?_, (reconcileCore_partition _ _ _ _ _ _).2⟩
  exact (reconcileCore_partition (filterSR stDf) (filterSR seDf) stA seA
    stDf.rows.length seDf.rows.length).1

/-- The spec's end-to-end example pair (statement amount 100, settlement
amount 90, shared pin `1`, both tagged ShouldReconcile). -/
def stDfEx : DF :=
  ⟨["Partner_Pin", "Type", "Settle.Amt", "Reconcile_Tag"],
   [[("Partner_Pin", Value.str "1"), ("Type", Value.str "Purchase"),
     ("Settle.Amt", Value.num 100), ("Reconcile_Tag", srTag)]]⟩

def seDfEx : DF :=
  ⟨["Partner_Pin", "Type", "estimate_amount_usd", "Reconcile_Tag"],
   [[("Partner_Pin", Value.str "1"), ("Type", Value.str "Purchase"),
     ("estimate_amount_usd", Value.num 90), ("Reconcile_Tag", srTag)]]⟩

/-- Witness for C1 at the example pair. -/
theorem C1_partition_witness :
    ∃ out, reconcile_data stDfEx seDfEx "Settle.Amt" "estimate_amount_usd" = Except.ok out
      ∧ out.category_5.length + out.category_6.length + out.category_7.length
          = out.all_merged.length :=
  ⟨_, rfl, (C1_partition stDfEx seDfEx "Settle.Amt" "estimate_amount_usd" _ rfl).1⟩

/-- C5: a missing `Reconcile_Tag` column on either input is a fatal
validation error — `reconcile_data` returns the error and no result — and
when both inputs carry the column this error is never raised. -/
theorem C5_reconcile_tag_validation (stDf seDf : DF) (stA seA : String) :
    (("Reconcile_Tag" ∉ stDf.cols ∨ "Reconcile_Tag" ∉ seDf.cols) →
        reconcile_data stDf seDf stA seA = Except.error RErr.missingTag)
    ∧ ("Reconcile_Tag" ∈ stDf.cols → "Reconcile_Tag" ∈ seDf.cols →
        reconcile_data stDf seDf stA seA ≠ Except.error RErr.missingTag) := by
  constructor
  · intro h
    by_cases h1 : "Reconcile_Tag" ∈ stDf.cols
    · have h2 : "Reconcile_Tag" ∉ seDf.cols := by
        rcases h with h | h
        · exact absurd h1 h
        · exact h
      simp only [reconcile_data, get_reconcilable_mem stDf h1,
        get_reconcilable_not_mem seDf h2]
    · simp only [reconcile_data, get_reconcilable_not_mem stDf h1]
  · intro h1 h2
    simp only [reconcile_data, get_reconcilable_mem stDf h1, get_reconcilable_mem seDf h2]
    by_cases h3 : "Partner_Pin" ∈ (filterSR stDf).cols ∧ "Partner_Pin" ∈ (filterSR seDf).cols
    · rw [if_pos h3]
      cases varianceAborts (filterSR stDf) (filterSR seDf) stA seA <;> simp
    · rw [if_neg h3]
      simp

/-- Witness for C5: a frame without the tag column errors; the example pair
with tag columns does not raise the tag error. -/
theorem C5_reconcile_tag_validation_witness :
    reconcile_data ⟨["Partner_Pin"], []⟩ seDfEx "Settle.Amt" "estimate_amount_usd"
        = Except.error RErr.missingTag
    ∧ reconcile_data stDfEx seDfEx "Settle.Amt" "estimate_amount_usd"
        ≠ Except.error RErr.missingTag :=
  ⟨(C5_reconcile_tag_validation ⟨["Partner_Pin"], []⟩ seDfEx
      "Settle.Amt" "estimate_amount_usd").1 (Or.inl (by decide)),
   (C5_reconcile_tag_validation stDfEx seDfEx
      "Settle.Amt" "estimate_amount_usd").2 (by decide) (by decide)⟩

/-- A statement frame carrying the tag and pin columns but no amount
column. -/
def stDfNoAmt : DF :=
  ⟨["Partner_Pin", "Reconcile_Tag"],
   [[("Partner_Pin", Value.str "1"), ("Reconcile_Tag", srTag)]]⟩

/-- C6 counterexample: with the statement amount column absent,
`reconcile_data` succeeds — no validation error is raised, contradicting
the claim. -/
theorem C6_counterexample :
    "Settle.Amt" ∉ stDfNoAmt.cols
    ∧ (reconcile_data stDfNoAmt seDfEx "Settle.Amt" "estimate_amount_usd").isOk = true :=
  ⟨by decide, rfl⟩

/-- C6 amended: when the configured amount columns are not both present in
the merged frame, `reconcile_data` raises no error at all: it silently
skips the variance step and returns a full result in which every
`Variance` / `Variance_Percent` cell is null. -/
theorem C6_amended_missing_amount (stDf seDf : DF) (stA seA : String)
    (h1 : "Reconcile_Tag" ∈ stDf.cols) (h2 : "Reconcile_Tag" ∈ seDf.cols)
    (h3 : "Partner_Pin" ∈ stDf.cols) (h4 : "Partner_Pin" ∈ seDf.cols)
    (h5 : ¬(("st_" ++ stA) ∈ mergedCols stDf.cols seDf.cols
            ∧ ("set_" ++ seA) ∈ mergedCols stDf.cols seDf.cols)) :
    ∃ out, reconcile_data stDf seDf stA seA = Except.ok out
      ∧ ∀ c ∈ out.all_merged, c.variance = FNum.nan ∧ c.vp = FNum.nan := by
  have hAmtFalse :
      (decide (("st_" ++ stA) ∈ mergedCols (filterSR stDf).cols (filterSR seDf).cols)
        && decide (("set_" ++ seA) ∈ mergedCols (filterSR stDf).cols (filterSR seDf).cols))
        = false := by
    by_contra hb
    rw [Bool.not_eq_false] at hb
    simp only [Bool.and_eq_true, decide_eq_true_eq] at hb
    exact h5 hb
  have hva : varianceAborts (filterSR stDf) (filterSR seDf) stA seA = false := by
    unfold varianceAborts
    rw [hAmtFalse, Bool.false_and]
  refine ⟨reconcileCore (filterSR stDf) (filterSR seDf) stA seA
    stDf.rows.length seDf.rows.length, ?_, ?_⟩
  · simp only [reconcile_data, get_reconcilable_mem stDf h1, get_reconcilable_mem seDf h2]
    rw [if_pos ⟨h3, h4⟩, if_neg (by rw [hva]; exact Bool.false_ne_true)]
  · intro c hc
    simp only [reconcileCore] at hc
    rcases List.mem_map.mp hc with ⟨m, hm, rfl⟩
    unfold mkCRow
    dsimp only
    rw [hAmtFalse]
    simp

/-- Witness for the amended C6 at a concrete missing-amount frame. -/
theorem C6_amended_missing_amount_witness :
    ∃ out, reconcile_data stDfNoAmt seDfEx "Settle.Amt" "estimate_amount_usd" = Except.ok out
      ∧ ∀ c ∈ out.all_merged, c.variance = FNum.nan ∧ c.vp = FNum.nan :=
  C6_amended_missing_amount stDfNoAmt seDfEx "Settle.Amt" "estimate_amount_usd"
    (by decide) (by decide) (by decide) (by decide) (by decide)

theorem fsub_nan (x : FNum) : fsub x FNum.nan = FNum.nan := by cases x <;> rfl

theorem fdiv_nan (x : FNum) : fdiv x FNum.nan = FNum.nan := by cases x <;> rfl

theorem fmul_nan (x : FNum) : fmul FNum.nan x = FNum.nan := by cases x <;> rfl

/-- C2 amended: for every Category 5 row (amount columns present),
`Variance` is the element subtraction of the coerced amounts (missing on
either side gives null) and `VariancePercent` is
`Variance / statement_amount * 100` UNROUNDED — the trailing `.round(2)`
is a no-op on the object-dtype column. When the statement amount is
missing, both are null. A successful run certifies that no Category 5
statement amount is exactly zero (such an amount makes the whole call
raise `ZeroDivisionError` instead — see the counterexample), so when the
statement amount is a number `s` and the settlement amount a number `e`,
Variance is exactly `e - s` and VariancePercent exactly `(e-s)/s*100`. -/
theorem C2_amended_variance (stDf seDf : DF) (stA seA : String) (out : ROut)
    (h : reconcile_data stDf seDf stA seA = Except.ok out)
    (hA : ("st_" ++ stA) ∈ mergedCols stDf.cols seDf.cols)
    (hB : ("set_" ++ seA) ∈ mergedCols stDf.cols seDf.cols) :
    ∀ c ∈ out.category_5,
      c.variance = fsub (coerceF (vOf c.seR seA)) (coerceF (vOf c.stR stA))
      ∧ c.vp = fmul (fdiv c.variance (coerceF (vOf c.stR stA))) (FNum.fin 100)
      ∧ toNumeric (vOf c.stR stA) ≠ some 0
      ∧ (toNumeric (vOf c.stR stA) = none → c.variance = FNum.nan ∧ c.vp = FNum.nan)
      ∧ (∀ s e : ℚ, toNumeric (vOf c.stR stA) = some s →
          toNumeric (vOf c.seR seA) = some e →
          c.variance = FNum.fin (e - s)
            ∧ c.vp = FNum.fin ((e - s) / s * 100)) := by
  obtain ⟨hout, hguard⟩ := reconcile_data_ok stDf seDf stA seA out h
  subst hout
  intro c hc
  simp only [reconcileCore] at hc
  rcases List.mem_filter.mp hc with ⟨hcm, hcat⟩
  rcases List.mem_map.mp hcm with ⟨m, hm, rfl⟩
  have hcat5 : categoryOf m = 5 := by
    rw [mkCRow_category] at hcat
    simpa using hcat
  have hAmt : (decide (("st_" ++ stA) ∈ mergedCols (filterSR stDf).cols (filterSR seDf).cols)
      && decide (("set_" ++ seA) ∈ mergedCols (filterSR stDf).cols (filterSR seDf).cols))
      = true := by
    simp only [filterSR, Bool.and_eq_true, decide_eq_true_eq]
    exact ⟨hA, hB⟩
  have hnz : toNumeric (vOf m.stR stA) ≠ some 0 := by
    intro h0
    unfold varianceAborts at hguard
    rw [hAmt, Bool.true_and, List.any_eq_false] at hguard
    have hg := hguard m hm
    rw [hcat5, h0] at hg
    simp at hg
  have hcond : (decide (categoryOf m = 5)
      && (decide (("st_" ++ stA) ∈ mergedCols (filterSR stDf).cols (filterSR seDf).cols)
          && decide (("set_" ++ seA) ∈ mergedCols (filterSR stDf).cols (filterSR seDf).cols)))
      = true := by
    rw [hAmt, hcat5]
    rfl
  unfold mkCRow
  dsimp only
  rw [hcond]
  simp only [if_true]
  refine ⟨by trivial, by trivial, hnz, ?_, ?_⟩
  · intro hst
    have hcoe : coerceF (vOf m.stR stA) = FNum.nan := by
      unfold coerceF
      rw [hst]
    rw [hcoe, fsub_nan, fdiv_nan, fmul_nan]
    refine ⟨?_, ?_⟩ <;> trivial
  · intro s e hst hse
    have hs : s ≠ 0 := by
      intro hs0
      exact hnz (hst.trans (by rw [hs0]))
    have hcoe1 : coerceF (vOf m.stR stA) = FNum.fin s := by
      unfold coerceF; rw [hst]
    have hcoe2 : coerceF (vOf m.seR seA) = FNum.fin e := by
      unfold coerceF; rw [hse]
    rw [hcoe1, hcoe2]
    constructor
    · rfl
    · show fmul (fdiv (fsub (FNum.fin e) (FNum.fin s)) (FNum.fin s)) (FNum.fin 100)
        = FNum.fin ((e - s) / s * 100)
      simp [fsub, fdiv, fmul, hs]

/-- A zero statement amount matched with a settlement amount of 5. -/
def stDfZero : DF :=
  ⟨["Partner_Pin", "Settle.Amt", "Reconcile_Tag"],
   [[("Partner_Pin", Value.str "1"), ("Settle.Amt", Value.num 0), ("Reconcile_Tag", srTag)]]⟩

def seDfZero : DF :=
  ⟨["Partner_Pin", "estimate_amount_usd", "Reconcile_Tag"],
   [[("Partner_Pin", Value.str "1"), ("estimate_amount_usd", Value.num 5),
     ("Reconcile_Tag", srTag)]]⟩

/-- Amounts 3 and 4: the exact percentage 100/3 is not a two-decimal
value, exposing that no rounding happens. -/
def stDfThird : DF :=
  ⟨["Partner_Pin", "Settle.Amt", "Reconcile_Tag"],
   [[("Partner_Pin", Value.str "1"), ("Settle.Amt", Value.num 3), ("Reconcile_Tag", srTag)]]⟩

def seDfThird : DF :=
  ⟨["Partner_Pin", "estimate_amount_usd", "Reconcile_Tag"],
   [[("Partner_Pin", Value.str "1"), ("estimate_amount_usd", Value.num 4),
     ("Reconcile_Tag", srTag)]]⟩

/-- C2 counterexample, two runs: (i) with `statement_amount = 0` the
division of the object-dtype Variance column runs under Python float
semantics and raises `ZeroDivisionError`, so the call aborts with no
Category 5 output at all — the claim's promise that division is never
attempted against a zero denominator (and that every Category 5 pair gets
a Variance/VariancePercent) fails; (ii) with `statement_amount = 3` and
`settlement_amount = 4` the stored VariancePercent is the UNROUNDED
`100/3` (`.round(2)` is a no-op on the object-dtype column), not the
claimed two-decimal rounding `33.33`. -/
theorem C2_counterexample :
    reconcile_data stDfZero seDfZero "Settle.Amt" "estimate_amount_usd"
        = Except.error RErr.zeroDivision
    ∧ (reconcile_data stDfThird seDfThird "Settle.Amt" "estimate_amount_usd").map
        (fun o => o.category_5.map (fun c => c.vp))
      = Except.ok [FNum.fin ((100 : ℚ) / 3)]
    ∧ FNum.fin ((100 : ℚ) / 3) ≠ FNum.fin (round2 ((100 : ℚ) / 3)) := by
  refine ⟨rfl, ?_, ?_⟩
  · have h0 : (reconcile_data stDfThird seDfThird "Settle.Amt" "estimate_amount_usd").map
        (fun o => o.category_5.map (fun c => c.vp))
        = Except.ok [fmul (fdiv (fsub (FNum.fin 4) (FNum.fin 3)) (FNum.fin 3))
            (FNum.fin 100)] := rfl
    rw [h0]
    have h1 : fsub (FNum.fin 4) (FNum.fin 3) = FNum.fin 1 := by
      simp [fsub]
      norm_num
    rw [h1]
    have h2 : fdiv (FNum.fin 1) (FNum.fin 3) = FNum.fin (1 / 3) := by
      simp [fdiv]
    rw [h2]
    have h3 : fmul (FNum.fin (1 / 3)) (FNum.fin 100) = FNum.fin ((100 : ℚ) / 3) := by
      simp [fmul]
      norm_num
    rw [h3]
  · have hr : round2 ((100 : ℚ) / 3) = 3333 / 100 := by
      simp only [round2]
      have h5 : roundHalfEven ((100 : ℚ) / 3 * 100) = 3333 := by
        simp only [roundHalfEven]
        norm_num
      rw [h5]
      norm_num
    rw [hr]
    intro hx
    exact absurd (FNum.fin.inj hx) (by norm_num)

/-- Witness for the amended C2 at the spec's example
(`statement_amount = 100`, `settlement_amount = 90`): Variance and
VariancePercent both come out as −10 (here the exact quotient is already
a two-decimal value, so the missing rounding is invisible). -/
theorem C2_amended_variance_witness :
    reconcile_data stDfEx seDfEx "Settle.Amt" "estimate_amount_usd"
        = Except.ok (reconcileCore (filterSR stDfEx) (filterSR seDfEx)
            "Settle.Amt" "estimate_amount_usd" 1 1)
    ∧ (∀ c ∈ (reconcileCore (filterSR stDfEx) (filterSR seDfEx)
          "Settle.Amt" "estimate_amount_usd" 1 1).category_5,
        c.variance = fsub (coerceF (vOf c.seR "estimate_amount_usd"))
            (coerceF (vOf c.stR "Settle.Amt")))
    ∧ (reconcileCore (filterSR stDfEx) (filterSR seDfEx)
          "Settle.Amt" "estimate_amount_usd" 1 1).category_5.map
        (fun c => (c.variance, c.vp)) = [(FNum.fin (-10), FNum.fin (-10))] := by
  refine ⟨rfl,
    fun c hc => (C2_amended_variance stDfEx seDfEx "Settle.Amt" "estimate_amount_usd"
      _ rfl (by decide) (by decide) c hc).1, ?_⟩
  have h0 : (reconcileCore (filterSR stDfEx) (filterSR seDfEx)
        "Settle.Amt" "estimate_amount_usd" 1 1).category_5.map
      (fun c => (c.variance, c.vp))
      = [(fsub (FNum.fin 90) (FNum.fin 100),
          fmul (fdiv (fsub (FNum.fin 90) (FNum.fin 100)) (FNum.fin 100))
            (FNum.fin 100))] := rfl
  rw [h0]
  have h1 : fsub (FNum.fin 90) (FNum.fin 100) = FNum.fin (-10) := by
    simp [fsub]
    norm_num
  rw [h1]
  have h2 : fdiv (FNum.fin (-10)) (FNum.fin 100) = FNum.fin (-1 / 10) := by
    simp [fdiv]
    norm_num
  rw [h2]
  have h3 : fmul (FNum.fin (-1 / 10)) (FNum.fin 100) = FNum.fin (-10) := by
    simp [fmul]
    norm_num
  rw [h3]

/-- C8: the four variance statistics are computed only over Category 5 rows
with a non-null Variance (`finVals`); when there are none, all four are the
explicit fallback `0.0`, otherwise they are the sum, mean, maximum and
minimum of those values. -/
theorem C8_variance_stats (stDf seDf : DF) (stA seA : String) (out : ROut)
    (h : reconcile_data stDf seDf stA seA = Except.ok out) :
    (finVals out.category_5 = [] →
        out.summary.total_variance = 0 ∧ out.summary.avg_variance = 0
        ∧ out.summary.max_variance = 0 ∧ out.summary.min_variance = 0)
    ∧ (finVals out.category_5 ≠ [] →
        out.summary.total_variance = (finVals out.category_5).sum
        ∧ out.summary.avg_variance
            = (finVals out.category_5).sum / ((finVals out.category_5).length : ℚ)
        ∧ out.summary.max_variance = qListMax (finVals out.category_5)
        ∧ out.summary.min_variance = qListMin (finVals out.category_5)) := by
  rw [(reconcile_data_ok stDf seDf stA seA out h).1]
  simp only [reconcileCore]
  constructor
  · intro hemp
    simp only [hemp]
    simp
  · intro hne
    simp only [if_pos (List.length_pos.mpr hne)]
    refine ⟨?_, ?_, ?_, ?_⟩ <;> trivial

/-- Witness for C8 at an input whose only Category 5 row has a null
Variance (the amount column is absent): all four statistics are 0. -/
theorem C8_variance_stats_witness :
    ∃ out, reconcile_data stDfNoAmt seDfEx "Settle.Amt" "estimate_amount_usd" = Except.ok out
      ∧ out.summary.total_variance = 0 ∧ out.summary.avg_variance = 0
      ∧ out.summary.max_variance = 0 ∧ out.summary.min_variance = 0 :=
  ⟨_, rfl, (C8_variance_stats stDfNoAmt seDfEx "Settle.Amt" "estimate_amount_usd"
    _ rfl).1 rfl⟩

/-- C10: records with a missing identifier that are tagged ShouldReconcile
do join, and null identifiers match each other: every null-pin statement
record pairs with every null-pin settlement record as a Category 5 row, and
such records never appear as Category 7 / Category 6 rows. -/
theorem C10_null_pins_match (stDf seDf : DF) (stA seA : String) (out : ROut)
    (h : reconcile_data stDf seDf stA seA = Except.ok out)
    (l : Row) (hl : l ∈ stDf.rows) (hlt : getF l "Reconcile_Tag" = srTag)
    (hlp : getF l "Partner_Pin" = Value.null)
    (s : Row) (hs : s ∈ seDf.rows) (hst : getF s "Reconcile_Tag" = srTag)
    (hsp : getF s "Partner_Pin" = Value.null) :
    (∃ c ∈ out.category_5, c.stR = some l ∧ c.seR = some s)
    ∧ (∀ c ∈ out.category_7, c.stR ≠ some l)
    ∧ (∀ c ∈ out.category_6, c.seR ≠ some s) := by
  rw [(reconcile_data_ok stDf seDf stA seA out h).1]
  simp only [reconcileCore]
  have hl' : l ∈ (filterSR stDf).rows := List.mem_filter.mpr ⟨hl, by simp [hlt]⟩
  have hs' : s ∈ (filterSR seDf).rows := List.mem_filter.mpr ⟨hs, by simp [hst]⟩
  have hmatch : s ∈ rowsMatching (filterSR seDf).rows (getF l "Partner_Pin") := by
    unfold rowsMatching
    exact List.mem_filter.mpr ⟨hs', by simp [hsp, hlp]⟩
  refine ⟨?_, ?_, ?_⟩
  · have hjoin : (⟨getF l "Partner_Pin", some l, some s⟩ : MRow)
        ∈ outerJoin (filterSR stDf).rows (filterSR seDf).rows := by
      unfold outerJoin
      apply List.mem_append_left
      apply List.mem_flatMap.mpr
      refine ⟨l, hl', ?_⟩
      rw [if_neg (by
        intro he
        rw [List.isEmpty_iff.mp he] at hmatch
        exact absurd hmatch (List.not_mem_nil s))]
      exact List.mem_map.mpr ⟨s, hmatch, rfl⟩
    refine ⟨_, List.mem_filter.mpr ⟨List.mem_map.mpr ⟨_, hjoin, rfl⟩, ?_⟩, ?_, ?_⟩
    · rw [mkCRow_category]
      rfl
    · rw [(mkCRow_sides _ _ _ _).1]
    · rw [(mkCRow_sides _ _ _ _).2]
  · intro c hc hceq
    rcases List.mem_filter.mp hc with ⟨hcm, hcat⟩
    rcases List.mem_map.mp hcm with ⟨m, hm, rfl⟩
    rw [(mkCRow_sides _ _ _ m).1] at hceq
    have hcat7 : categoryOf m = 7 := by
      rw [mkCRow_category] at hcat
      simpa using hcat
    have hseR : m.seR = none := by
      unfold categoryOf at hcat7
      cases hst' : m.stR <;> cases hse' : m.seR <;> rw [hst', hse'] at hcat7 <;> simp_all
    unfold outerJoin at hm
    rcases List.mem_append.mp hm with hm | hm
    · rcases List.mem_flatMap.mp hm with ⟨l', hl2, hm2⟩
      by_cases he : (rowsMatching (filterSR seDf).rows (getF l' "Partner_Pin")).isEmpty
      · rw [if_pos he] at hm2
        rcases List.mem_singleton.mp hm2 with rfl
        simp only at hceq
        rcases Option.some.inj hceq with rfl
        rw [List.isEmpty_iff.mp he] at hmatch
        exact absurd hmatch (List.not_mem_nil s)
      · rw [if_neg he] at hm2
        rcases List.mem_map.mp hm2 with ⟨s', _, rfl⟩
        simp at hseR
    · rcases List.mem_map.mp hm with ⟨s', _, rfl⟩
      simp at hceq
  · intro c hc hceq
    rcases List.mem_filter.mp hc with ⟨hcm, hcat⟩
    rcases List.mem_map.mp hcm with ⟨m, hm, rfl⟩
    rw [(mkCRow_sides _ _ _ m).2] at hceq
    have hcat6 : categoryOf m = 6 := by
      rw [mkCRow_category] at hcat
      simpa using hcat
    have hstR : m.stR = none := by
      unfold categoryOf at hcat6
      cases hst' : m.stR <;> cases hse' : m.seR <;> rw [hst', hse'] at hcat6 <;> simp_all
    unfold outerJoin at hm
    rcases List.mem_append.mp hm with hm | hm
    · rcases List.mem_flatMap.mp hm with ⟨l', hl2, hm2⟩
      by_cases he : (rowsMatching (filterSR seDf).rows (getF l' "Partner_Pin")).isEmpty
      · rw [if_pos he] at hm2
        rcases List.mem_singleton.mp hm2 with rfl
        simp at hstR
      · rw [if_neg he] at hm2
        rcases List.mem_map.mp hm2 with ⟨s', _, rfl⟩
        simp at hstR
    · rcases List.mem_map.mp hm with ⟨s', hs2, rfl⟩
      simp only at hceq
      have hse' : s' = s := Option.some.inj hceq
      have hsp' : getF s' "Partner_Pin" = Value.null := by rw [hse']; exact hsp
      rcases List.mem_filter.mp hs2 with ⟨_, hnone⟩
      have hlmatch : (filterSR stDf).rows.any
          (fun l' => getF l' "Partner_Pin" == getF s' "Partner_Pin") = true := by
        rw [List.any_eq_true]
        exact ⟨l, hl', by simp [hlp, hsp']⟩
      rw [hlmatch] at hnone
      exact absurd hnone (by simp)

/-- A single null-pin ShouldReconcile record. -/
def nullPinRow : Row := [("Partner_Pin", Value.null), ("Reconcile_Tag", srTag)]

def dfNullPin : DF := ⟨["Partner_Pin", "Reconcile_Tag"], [nullPinRow]⟩

/-- Witness for C10: two null-pin records, one per side, meet in a
Category 5 row. -/
theorem C10_null_pins_match_witness :
    ∃ out, reconcile_data dfNullPin dfNullPin "Settle.Amt" "estimate_amount_usd"
        = Except.ok out
      ∧ ∃ c ∈ out.category_5, c.stR = some nullPinRow ∧ c.seR = some nullPinRow :=
  ⟨_, rfl, (C10_null_pins_match dfNullPin dfNullPin "Settle.Amt" "estimate_amount_usd"
      _ rfl nullPinRow (List.mem_singleton.mpr rfl) rfl rfl
      nullPinRow (List.mem_singleton.mpr rfl) rfl rfl).1⟩
